import Mathlib

/-!
# Verification of the NtandoComputer deployment workflow

A shallow embedding of `computer.py` (class `NtandoComputer` and the Flask
routes around it): the domain allocator, the deployment workflows, persistence
(`INSERT OR REPLACE` into the `applications` table), the backup sweeper, the
restore operation, the serving layer and the analytics hooks.

External effects (SQLite, the filesystem, `uuid4`, `npm`, the wall clock) are
modelled by explicit state passing and by oracles supplied as parameters:
tables become lists of rows, directories become association lists of paths to
entry listings, and each nondeterministic or fallible external call is a
parameter recording its outcome.
-/

/-! ## Decimal digit strings

The Python code builds probe domains with the f-string
`f"{clean_name}-{counter}{base_domain}"`; the interpolation of the `int`
`counter` is its decimal representation, embedded as `Nat.repr`.  To reason
about the probe loop we need that `Nat.repr` is injective, which the library
does not provide; we prove it by relating `Nat.toDigitsCore` to a structurally
recursive digit-list function. -/

/-- Decimal digit characters of `n`, most significant first. -/
def decDigits (n : Nat) : List Char :=
  if _h : n < 10 then [Nat.digitChar n]
  else decDigits (n / 10) ++ [Nat.digitChar (n % 10)]
termination_by n
decreasing_by exact Nat.div_lt_self (by omega) (by omega)

theorem decDigits_lt {n : Nat} (h : n < 10) : decDigits n = [Nat.digitChar n] := by
  rw [decDigits, dif_pos h]

theorem decDigits_ge {n : Nat} (h : ¬ n < 10) :
    decDigits n = decDigits (n / 10) ++ [Nat.digitChar (n % 10)] := by
  rw [decDigits]
  rw [dif_neg h]

theorem decDigits_ne_nil (n : Nat) : decDigits n ≠ [] := by
  by_cases h : n < 10
  · rw [decDigits_lt h]; simp
  · rw [decDigits_ge h]; simp

theorem digitChar_inj_fin : ∀ a b : Fin 10,
    Nat.digitChar a.val = Nat.digitChar b.val → a = b := by decide

theorem digitChar_inj10 {a b : Nat} (ha : a < 10) (hb : b < 10)
    (h : Nat.digitChar a = Nat.digitChar b) : a = b := by
  have h2 := digitChar_inj_fin ⟨a, ha⟩ ⟨b, hb⟩ h
  exact congrArg Fin.val h2

theorem decDigits_injective : ∀ m n : Nat, decDigits m = decDigits n → m = n := by
  intro m
  induction m using Nat.strong_induction_on with
  | _ m ih =>
    intro n h
    by_cases hm : m < 10 <;> by_cases hn : n < 10
    · rw [decDigits_lt hm, decDigits_lt hn] at h
      simp only [List.cons.injEq, and_true] at h
      exact digitChar_inj10 hm hn h
    · exfalso
      rw [decDigits_lt hm, decDigits_ge hn] at h
      have hlen := congrArg List.length h
      simp only [List.length_append, List.length_cons, List.length_nil] at hlen
      have hnil : decDigits (n / 10) = [] := by
        cases hne : decDigits (n / 10) with
        | nil => rfl
        | cons a l => rw [hne] at hlen; simp at hlen
      exact decDigits_ne_nil _ hnil
    · exfalso
      rw [decDigits_ge hm, decDigits_lt hn] at h
      have hlen := congrArg List.length h
      simp only [List.length_append, List.length_cons, List.length_nil] at hlen
      have hnil : decDigits (m / 10) = [] := by
        cases hne : decDigits (m / 10) with
        | nil => rfl
        | cons a l => rw [hne] at hlen; simp at hlen
      exact decDigits_ne_nil _ hnil
    · rw [decDigits_ge hm, decDigits_ge hn] at h
      have hlen : (decDigits (m / 10)).length = (decDigits (n / 10)).length := by
        have hl := congrArg List.length h
        simp only [List.length_append, List.length_cons, List.length_nil] at hl
        omega
      obtain ⟨hinit, hlast⟩ := List.append_inj h hlen
      have hdiv : m / 10 = n / 10 :=
        ih (m / 10) (Nat.div_lt_self (by omega) (by omega)) (n / 10) hinit
      have hmod : m % 10 = n % 10 := by
        simp only [List.cons.injEq, and_true] at hlast
        exact digitChar_inj10 (Nat.mod_lt _ (by omega)) (Nat.mod_lt _ (by omega)) hlast
      omega

theorem toDigitsCore_eq_decDigits :
    ∀ (n fuel : Nat) (ds : List Char), n < fuel →
      Nat.toDigitsCore 10 fuel n ds = decDigits n ++ ds := by
  intro n
  induction n using Nat.strong_induction_on with
  | _ n ih =>
    intro fuel ds hfuel
    match fuel, hfuel with
    | fuel + 1, hfuel =>
      simp only [Nat.toDigitsCore]
      by_cases h10 : n / 10 = 0
      · rw [if_pos h10]
        have hn : n < 10 := by omega
        rw [decDigits_lt hn, Nat.mod_eq_of_lt hn]
        simp
      · rw [if_neg h10]
        have hpos : 0 < n := by
          rcases Nat.eq_zero_or_pos n with h | h
          · exfalso; apply h10; simp [h]
          · exact h
        have hdivlt : n / 10 < n := Nat.div_lt_self hpos (by omega)
        rw [ih (n / 10) hdivlt fuel _ (by omega)]
        have hn : ¬ n < 10 := by
          intro hc
          exact h10 (Nat.div_eq_of_lt hc)
        rw [decDigits_ge hn]
        simp

theorem natRepr_injective : Function.Injective Nat.repr := by
  intro m n h
  apply decDigits_injective
  have hm : Nat.toDigits 10 m = decDigits m := by
    simpa using toDigitsCore_eq_decDigits m (m + 1) [] (by omega)
  have hn : Nat.toDigits 10 n = decDigits n := by
    simpa using toDigitsCore_eq_decDigits n (n + 1) [] (by omega)
  have h2 : (Nat.toDigits 10 m).asString = (Nat.toDigits 10 n).asString := h
  rw [hm, hn] at h2
  exact List.asString_inj.mp h2

/-! ## Data model

`computer.py` keeps two stores: the SQLite `applications` table (the relational
Metadata Store) and the in-process `config["deployed_apps"]` dictionary
mirrored into `config.json`.  `AppRow` embeds one row of the `applications`
table (schema in `init_database`); the `deployed_apps` dictionary is an
association list from app id to the `app_info` dictionary built at deploy
time. -/

namespace NtandoComputer

/-- One row of the SQLite `applications` table.  Nullable columns are
`Option`; timestamps (ISO strings in the source, compared and maximised
lexicographically by SQLite) are modelled as naturals, which preserves their
total order. -/
structure AppRow where
  id : String
  user_id : Nat
  name : String
  type : String
  domain : String
  path : String
  url : String
  deployed_at : Nat
  updated_at : Nat
  status : String
  port : Option Nat
  command : Option String
  description : String
  public : Bool
  visits : Nat
  last_accessed : Option Nat
deriving DecidableEq

/-- Embeds `self.base_domain = ".ntando.store"`. -/
def base_domain : String := ".ntando.store"

/-- Embeds `domain_exists`: `SELECT id FROM applications WHERE domain = ?` and test
whether `fetchone()` found a row. -/
def domain_exists (db : List AppRow) (domain : String) : Bool :=
  db.any (fun a => a.domain == domain)

/-- The slug computed at the head of `generate_domain`:
`base_name = app_name.lower().replace(' ', '-').replace('_', '-')` and
`clean_name = ''.join(c for c in base_name if c.isalnum() or c == '-')`.
`str.lower` and `str.isalnum` are modelled on their ASCII fragment
(`Char.toLower` / `Char.isAlphanum`); the theorems about this function are
stated for ASCII inputs only. -/
def clean_name (app_name : String) : String :=
  let base_name :=
    ((app_name.data.map Char.toLower).map
        (fun c => if c = ' ' then '-' else c)).map
      (fun c => if c = '_' then '-' else c)
  ⟨base_name.filter (fun c => c.isAlphanum || c = '-')⟩

/-- The probe candidate `f"{clean_name}-{counter}{self.base_domain}"`. -/
def numbered_domain (clean : String) (counter : Nat) : String :=
  clean ++ "-" ++ Nat.repr counter ++ base_domain

/-- The `while self.domain_exists(domain)` loop of `generate_domain`, with an
explicit fuel bound (the Python loop is unbounded; `generate_domain` passes
enough fuel for the loop to provably find a free name). -/
def probe_loop (db : List AppRow) (clean : String) : Nat → Nat → Option String
  | _, 0 => none
  | counter, fuel + 1 =>
    let domain := numbered_domain clean counter
    if domain_exists db domain then probe_loop db clean (counter + 1) fuel
    else some domain

/-- Embeds `generate_domain(app_name, app_type)` (the `app_type` argument is unused in
the source body and omitted).  Returns `some domain`; the fuel
`db.length + 1` is shown sufficient in `generate_domain_total`. -/
def generate_domain (db : List AppRow) (app_name : String) : Option String :=
  let clean := clean_name app_name
  let domain := clean ++ base_domain
  if domain_exists db domain then probe_loop db clean 1 (db.length + 1)
  else some domain

theorem numbered_domain_injective (clean : String) :
    Function.Injective (numbered_domain clean) := by
  intro j k h
  have hdata := congrArg String.data h
  simp only [numbered_domain, String.data_append, List.append_assoc] at hdata
  have h1 := List.append_cancel_left hdata
  have h2 := List.append_cancel_left h1
  have h3 := List.append_cancel_right h2
  have h4 : Nat.repr j = Nat.repr k := by
    have : (Nat.repr j).data.asString = (Nat.repr k).data.asString :=
      congrArg List.asString h3
    simpa [List.asString] using this
  exact natRepr_injective h4

theorem domain_exists_iff (db : List AppRow) (d : String) :
    domain_exists db d = true ↔ ∃ a ∈ db, a.domain = d := by
  simp [domain_exists, List.any_eq_true]

/-- Pigeonhole: among the first `db.length + 1` probe candidates at least one
is free. -/
theorem exists_free_candidate (db : List AppRow) (clean : String) :
    ∃ i, i < db.length + 1 ∧
      domain_exists db (numbered_domain clean (1 + i)) = false := by
  by_contra hcon
  push_neg at hcon
  have hall : ∀ i : Fin (db.length + 1),
      numbered_domain clean (1 + i.val) ∈ db.map (fun a => a.domain) := by
    intro i
    have h1 := hcon i.val i.isLt
    have h2 : domain_exists db (numbered_domain clean (1 + i.val)) = true := by
      cases hval : domain_exists db (numbered_domain clean (1 + i.val)) with
      | false => exact absurd hval h1
      | true => rfl
    obtain ⟨a, ha, hd⟩ := (domain_exists_iff db _).mp h2
    exact List.mem_map.mpr ⟨a, ha, hd⟩
  have hinj : Function.Injective
      (fun i : Fin (db.length + 1) => numbered_domain clean (1 + i.val)) := by
    intro i j hij
    have := numbered_domain_injective clean hij
    exact Fin.ext (by omega)
  have hsub : Finset.univ.image
        (fun i : Fin (db.length + 1) => numbered_domain clean (1 + i.val)) ⊆
      (db.map (fun a => a.domain)).toFinset := by
    intro d hd
    obtain ⟨i, _, rfl⟩ := Finset.mem_image.mp hd
    exact List.mem_toFinset.mpr (hall i)
  have hcard1 : (Finset.univ.image
        (fun i : Fin (db.length + 1) => numbered_domain clean (1 + i.val))).card
      = db.length + 1 := by
    rw [Finset.card_image_of_injective _ hinj, Finset.card_univ, Fintype.card_fin]
  have hcard2 := Finset.card_le_card hsub
  have hcard3 := List.toFinset_card_le (db.map (fun a => a.domain))
  rw [hcard1] at hcard2
  simp only [List.length_map] at hcard3
  omega

/-- Soundness of the probe loop: given enough fuel to reach a free candidate,
the loop returns the first free candidate at or after `counter`. -/
theorem probe_loop_sound (db : List AppRow) (clean : String) :
    ∀ fuel counter,
      (∃ i, i < fuel ∧
        domain_exists db (numbered_domain clean (counter + i)) = false) →
      ∃ k, counter ≤ k ∧
        probe_loop db clean counter fuel = some (numbered_domain clean k) ∧
        domain_exists db (numbered_domain clean k) = false ∧
        ∀ j, counter ≤ j → j < k →
          domain_exists db (numbered_domain clean j) = true := by
  intro fuel
  induction fuel with
  | zero => intro counter ⟨i, hi, _⟩; omega
  | succ fuel ih =>
    intro counter ⟨i, hi, hfree⟩
    by_cases hc : domain_exists db (numbered_domain clean counter) = true
    · have hi0 : i ≠ 0 := by
        intro h0
        rw [h0, Nat.add_zero] at hfree
        rw [hc] at hfree
        simp at hfree
      obtain ⟨i2, rfl⟩ := Nat.exists_eq_succ_of_ne_zero hi0
      have hstep : ∃ i, i < fuel ∧
          domain_exists db (numbered_domain clean (counter + 1 + i)) = false := by
        refine ⟨i2, by omega, ?_⟩
        have : counter + 1 + i2 = counter + (i2 + 1) := by omega
        rw [this]
        exact hfree
      obtain ⟨k, hk1, hk2, hk3, hk4⟩ := ih (counter + 1) hstep
      refine ⟨k, by omega, ?_, hk3, ?_⟩
      · rw [probe_loop, if_pos hc]
        exact hk2
      · intro j hj1 hj2
        by_cases hjc : j = counter
        · rw [hjc]; exact hc
        · exact hk4 j (by omega) hj2
    · have hcf : domain_exists db (numbered_domain clean counter) = false := by
        cases hval : domain_exists db (numbered_domain clean counter) with
        | false => rfl
        | true => exact absurd hval hc
      refine ⟨counter, Nat.le_refl _, ?_, hcf, ?_⟩
      · rw [probe_loop, if_neg hc]
      · intro j hj1 hj2; omega

/-- Totality: `generate_domain` always finds a free name with fuel `db.length + 1`. -/
theorem generate_domain_total (db : List AppRow) (app_name : String) :
    ∃ d, generate_domain db app_name = some d := by
  rw [generate_domain]
  by_cases hc : domain_exists db (clean_name app_name ++ base_domain) = true
  · rw [if_pos hc]
    obtain ⟨i, hi, hfree⟩ := exists_free_candidate db (clean_name app_name)
    obtain ⟨k, _, hres, _, _⟩ := probe_loop_sound db (clean_name app_name)
      (db.length + 1) 1 ⟨i, hi, hfree⟩
    exact ⟨_, hres⟩
  · rw [if_neg hc]
    exact ⟨_, rfl⟩


/-! ## The Domain Allocator against the spec (claim C1) -/

/-- Modelled from the spec's words (amended): the character class
`[a-z0-9-]`. -/
def spec_char_ok (c : Char) : Bool :=
  ('a' ≤ c && c ≤ 'z') || ('0' ≤ c && c ≤ '9') || c = '-'

/-- Modelled from the spec's words (amended): lower-case the name, replace
space characters and underscores with hyphens, strip all characters outside
`[a-z0-9-]`.  To be compared with `clean_name`, which is translated from the
source. -/
def spec_slug (name : String) : String :=
  ⟨(((name.data.map Char.toLower).map
        (fun c => if c = ' ' then '-' else c)).map
      (fun c => if c = '_' then '-' else c)).filter spec_char_ok⟩

/-- The per-character transform appearing inside `clean_name`. -/
def slug_transform (c : Char) : Char :=
  if (if c.toLower = ' ' then '-' else c.toLower) = '_' then '-'
  else (if c.toLower = ' ' then '-' else c.toLower)

theorem ascii_char_agree_fin : ∀ i : Fin 128,
    ((slug_transform (Char.ofNat i.val)).isAlphanum
        || slug_transform (Char.ofNat i.val) = '-')
      = spec_char_ok (slug_transform (Char.ofNat i.val)) := by decide

theorem ascii_char_agree (c : Char) (h : c.toNat < 128) :
    ((slug_transform c).isAlphanum || slug_transform c = '-')
      = spec_char_ok (slug_transform c) := by
  have h3 := ascii_char_agree_fin ⟨c.toNat, h⟩
  rwa [Char.ofNat_toNat] at h3

/-- For ASCII input the source slug agrees with the spec's description. -/
theorem clean_name_eq_spec_slug (name : String)
    (h : ∀ c ∈ name.data, c.toNat < 128) :
    clean_name name = spec_slug name := by
  simp only [clean_name, spec_slug]
  congr 1
  apply List.filter_congr
  intro x hx
  simp only [List.mem_map] at hx
  obtain ⟨c1, hc1, rfl⟩ := hx
  obtain ⟨c0, hc0, rfl⟩ := hc1
  obtain ⟨c, hc, rfl⟩ := hc0
  exact ascii_char_agree c (h c hc)

theorem generate_domain_base (db : List AppRow) (app_name : String)
    (h : domain_exists db (clean_name app_name ++ base_domain) = false) :
    generate_domain db app_name = some (clean_name app_name ++ base_domain) := by
  rw [generate_domain]
  rw [if_neg (by simp [h])]

theorem generate_domain_probe (db : List AppRow) (app_name : String)
    (h : domain_exists db (clean_name app_name ++ base_domain) = true) :
    ∃ k, 1 ≤ k ∧
      generate_domain db app_name
        = some (numbered_domain (clean_name app_name) k) ∧
      domain_exists db (numbered_domain (clean_name app_name) k) = false ∧
      ∀ j, 1 ≤ j → j < k →
        domain_exists db (numbered_domain (clean_name app_name) j) = true := by
  obtain ⟨i, hi, hfree⟩ := exists_free_candidate db (clean_name app_name)
  obtain ⟨k, hk1, hk2, hk3, hk4⟩ := probe_loop_sound db (clean_name app_name)
    (db.length + 1) 1 ⟨i, hi, hfree⟩
  refine ⟨k, hk1, ?_, hk3, hk4⟩
  rw [generate_domain, if_pos (by simp [h])]
  exact hk2

/-- Whatever `generate_domain` returns was verified free against the store. -/
theorem generate_domain_free (db : List AppRow) (app_name : String)
    (d : String) (h : generate_domain db app_name = some d) :
    domain_exists db d = false := by
  by_cases hc : domain_exists db (clean_name app_name ++ base_domain) = true
  · obtain ⟨k, _, hk2, hk3, _⟩ := generate_domain_probe db app_name hc
    rw [hk2] at h
    injection h with h
    rw [← h]
    exact hk3
  · have hcf : domain_exists db (clean_name app_name ++ base_domain) = false := by
      cases hval : domain_exists db (clean_name app_name ++ base_domain) with
      | false => rfl
      | true => exact absurd hval hc
    rw [generate_domain_base db app_name hcf] at h
    injection h with h
    rw [← h]
    exact hcf


/-- A concrete application row used in witnesses. -/
def sampleRow (i dom : String) : AppRow :=
  { id := i, user_id := 1, name := "App", type := "html", domain := dom,
    path := "apps/xyz", url := "/app/xyz", deployed_at := 0,
    updated_at := 1, status := "running", port := none, command := none,
    description := "", public := true, visits := 0, last_accessed := none }

/-- C1, counterexample: the claim says *whitespace* is replaced by hyphens,
but `generate_domain` only replaces the space character `' '`; a tab is
stripped by the `isalnum` filter instead.  On the name `"a\tb"` with an empty
store the allocator returns `"ab.ntando.store"`, not the claimed
`"a-b.ntando.store"`. -/
theorem claim_C1_counterexample :
    generate_domain [] "a\tb" = some "ab.ntando.store" ∧
    ("ab.ntando.store" : String) ≠ "a-b.ntando.store" := by
  constructor
  · decide
  · decide

/-- C1 (amended): for every ASCII display name, the domain allocator returns
the name lower-cased, with space characters and underscores replaced by
hyphens (other whitespace is stripped, not hyphenated), with every character
outside `[a-z0-9-]` stripped, followed by the fixed suffix; and if that domain
already exists in the metadata store, it instead returns the slug followed by
`-1`, `-2`, … (the first positive integer whose resulting domain is not taken)
before the suffix, probing sequentially until a free name is found. -/
theorem claim_C1_generate_domain (db : List AppRow) (app_name : String)
    (hascii : ∀ c ∈ app_name.data, c.toNat < 128) :
    clean_name app_name = spec_slug app_name ∧
    (domain_exists db (clean_name app_name ++ base_domain) = false →
      generate_domain db app_name
        = some (clean_name app_name ++ base_domain)) ∧
    (domain_exists db (clean_name app_name ++ base_domain) = true →
      ∃ k, 1 ≤ k ∧
        generate_domain db app_name
          = some (numbered_domain (clean_name app_name) k) ∧
        domain_exists db (numbered_domain (clean_name app_name) k) = false ∧
        ∀ j, 1 ≤ j → j < k →
          domain_exists db (numbered_domain (clean_name app_name) j) = true) :=
  ⟨clean_name_eq_spec_slug app_name hascii,
   fun h => generate_domain_base db app_name h,
   fun h => generate_domain_probe db app_name h⟩

/-- Witness for C1 at the concrete name `"My Site!!"` and a store where
`my-site.ntando.store` is taken: the allocator yields `my-site-1`. -/
theorem claim_C1_generate_domain_witness :
    clean_name "My Site!!" = spec_slug "My Site!!" ∧
    generate_domain [sampleRow "a1" "my-site.ntando.store"] "My Site!!"
      = some "my-site-1.ntando.store" := by
  have h := claim_C1_generate_domain
    [sampleRow "a1" "my-site.ntando.store"] "My Site!!" (by decide)
  refine ⟨h.1, ?_⟩
  obtain ⟨k, hk1, hk2, hk3, hk4⟩ := h.2.2 (by decide)
  have hk : k = 1 := by
    by_contra hne
    have h1 := hk4 1 (Nat.le_refl 1) (by omega)
    revert h1
    decide
  rw [hk] at hk2
  rw [hk2]
  decide


/-! ## System state

The rest of `NtandoComputer` reads and writes: the SQLite tables
(`applications`, `backups`, `analytics`), the in-process config
(`config["deployed_apps"]`, `config["system_stats"]`), and the filesystem
(one directory per app under `apps/`, backup zips under `backups/`). -/

/-- Contents of a file inside an app directory.  Uploaded/extracted files are
opaque blobs; `package.json` can be the caller's verbatim text or the
synthesized fallback manifest (JSON serialization abstracted into the record
that `deploy_nodejs_app` builds). -/
inductive FileContent where
  | blob
  | text (s : String)
  | manifest (name version start engines_node : String)
deriving DecidableEq

/-- The filesystem: an association list from directory path to its entries
(filename with content). -/
abbrev DirMap := List (String × List (String × FileContent))

/-- An upload (`files` in the Flask handlers): either something
`zipfile.is_zipfile` accepts — carrying whether `extractall` completes and the
entry names it would produce — or a plain single file with its (sanitized)
filename. -/
inductive Upload where
  | zip (extract_ok : Bool) (entries : List String)
  | single (filename : String)
deriving DecidableEq

/-- One row of the `backups` table. -/
structure BackupRow where
  id : String
  app_id : String
  backup_path : String
  created_at : Nat
  size : Nat
deriving DecidableEq

/-- One row of the `analytics` table.  `metadata` keeps the dictionary passed
to `track_analytics` (its `json.dumps` serialization abstracted). -/
structure AnalyticsEvent where
  app_id : Option String
  event_type : String
  timestamp : Nat
  ip_address : Option String
  user_agent : Option String
  metadata : Option (List (String × String))
deriving DecidableEq

/-- The `app_info` dictionary a deploy builds and stores into
`config["deployed_apps"]`.  The constant-valued keys (`eternal`,
`backup_enabled`, `analytics_enabled`, `node_version`, `environment`) are
omitted; `command` is present only for nodejs apps. -/
structure DeployedApp where
  id : String
  name : String
  type : String
  domain : String
  path : String
  url : String
  full_url : String
  deployed_at : Nat
  status : String
  port : Nat
  command : Option String
  description : String
  public : Bool
  visits : Nat
deriving DecidableEq

/-- Embeds the `config["system_stats"]` counters touched by deploy/delete (the source
decrements with plain `-= 1`, so the values can go negative). -/
structure SysStats where
  total_apps : Int
  html_apps : Int
  nodejs_apps : Int
  eternal_apps : Int
deriving DecidableEq

/-- The full mutable state: SQLite tables, config dictionary, directories and
regular files (the backup zips). -/
structure SysState where
  db : List AppRow
  backups : List BackupRow
  analytics : List AnalyticsEvent
  deployed_apps : List (String × DeployedApp)
  stats : SysStats
  dirs : DirMap
  files : List String
deriving DecidableEq

/-- Outcomes of the external, nondeterministic calls a request makes:
`request` context, `uuid4`, `shutil.make_archive`, `os.path.getsize`,
`npm install`, and what `zipfile.ZipFile.extractall` of a backup zip
produces. -/
structure Env where
  ip : Option String
  ua : Option String
  backup_uuid : String → String
  archive_ok : String → Bool
  archive_size : String → Nat
  npm_ok : Bool
  snapshot : String → List (String × FileContent)

def dir_exists (dirs : DirMap) (p : String) : Bool :=
  dirs.any (fun e => e.1 == p)

/-- Embeds `os.makedirs(..., exist_ok=True)`. -/
def makedirs (dirs : DirMap) (p : String) : DirMap :=
  if dir_exists dirs p then dirs else dirs ++ [(p, [])]

/-- Writing one file into a directory's entry list (overwrite by name). -/
def write_file (es : List (String × FileContent)) (n : String)
    (c : FileContent) : List (String × FileContent) :=
  if es.any (fun e => e.1 == n) then
    es.map (fun e => if e.1 = n then (n, c) else e)
  else es ++ [(n, c)]

def write_file_in (dirs : DirMap) (p n : String) (c : FileContent) : DirMap :=
  dirs.map (fun e => if e.1 = p then (p, write_file e.2 n c) else e)

/-- Embeds `zip_ref.extractall(app_path)` / saving uploaded files: write each entry
as an opaque blob. -/
def extract_into (dirs : DirMap) (p : String) (names : List String) : DirMap :=
  names.foldl (fun d n => write_file_in d p n .blob) dirs

/-- Embeds `os.listdir`. -/
def listdir (dirs : DirMap) (p : String) : List String :=
  match dirs.find? (fun e => e.1 == p) with
  | some e => e.2.map (fun f => f.1)
  | none => []

/-- Embeds `shutil.rmtree`. -/
def rmtree (dirs : DirMap) (p : String) : DirMap :=
  dirs.filter (fun e => e.1 ≠ p)

def config_get (cfg : List (String × DeployedApp)) (k : String) :
    Option DeployedApp :=
  (cfg.find? (fun e => e.1 == k)).map (fun e => e.2)

/-- Dictionary assignment `config["deployed_apps"][k] = v`. -/
def config_set (cfg : List (String × DeployedApp)) (k : String)
    (v : DeployedApp) : List (String × DeployedApp) :=
  if cfg.any (fun e => e.1 == k) then
    cfg.map (fun e => if e.1 = k then (k, v) else e)
  else cfg ++ [(k, v)]

/-- Embeds `del config["deployed_apps"][k]`. -/
def config_del (cfg : List (String × DeployedApp)) (k : String) :
    List (String × DeployedApp) :=
  cfg.filter (fun e => e.1 ≠ k)


/-! ## Persistence: `save_application_to_db` (claim C2) -/

/-- The keys `save_application_to_db` reads from the `app_info` dictionary
(`user_id` is absent in both deploy paths, so `.get('user_id', 1)` yields the
default). -/
structure AppInfo where
  id : String
  name : String
  type : String
  domain : String
  path : String
  url : String
  deployed_at : Nat
  status : String
  port : Option Nat
  command : Option String
  description : String
  public : Bool
deriving DecidableEq

/-- The row the `INSERT OR REPLACE` statement writes: `updated_at` is
`datetime.now()`, `visits` is the literal `0`, and `last_accessed` is not in
the column list, so a replaced row's value resets to NULL. -/
def row_of_app_info (info : AppInfo) (now : Nat) : AppRow :=
  { id := info.id, user_id := 1, name := info.name, type := info.type,
    domain := info.domain, path := info.path, url := info.url,
    deployed_at := info.deployed_at, updated_at := now, status := info.status,
    port := info.port, command := info.command,
    description := info.description, public := info.public, visits := 0,
    last_accessed := none }

/-- SQLite `INSERT OR REPLACE`: first delete every stored row that would
violate a uniqueness constraint against the new row (`id` is the primary key,
`domain` is `UNIQUE`), then insert the new row. -/
def insert_or_replace (db : List AppRow) (r : AppRow) : List AppRow :=
  db.filter (fun a => a.id ≠ r.id ∧ a.domain ≠ r.domain) ++ [r]

/-- Embeds `save_application_to_db(app_info)`. -/
def save_application_to_db (db : List AppRow) (info : AppInfo) (now : Nat) :
    List AppRow :=
  insert_or_replace db (row_of_app_info info now)

/-- Embeds `track_analytics(app_id, event_type, metadata)`; `analytics_enabled` is
`True` in `__init__`, and the event's timestamp takes the SQLite column
default `CURRENT_TIMESTAMP`. -/
def track_analytics (env : Env) (now : Nat) (analytics : List AnalyticsEvent)
    (app_id : String) (event_type : String)
    (metadata : Option (List (String × String))) : List AnalyticsEvent :=
  analytics ++ [{ app_id := some app_id, event_type := event_type,
                  timestamp := now, ip_address := env.ip,
                  user_agent := env.ua, metadata := metadata }]

/-- Embeds `create_app_backup(app_id)` (`backup_enabled` is `True` in `__init__`):
look the app up in the database, and if its directory exists, zip it into
`backups/<uuid>` and insert a `backups` row.  A `make_archive` failure is
caught and only printed. -/
def create_app_backup (env : Env) (now : Nat) (st : SysState)
    (app_id : String) : SysState :=
  match st.db.find? (fun a => a.id == app_id) with
  | none => st
  | some a =>
    if dir_exists st.dirs a.path then
      let backup_id := env.backup_uuid app_id
      let backup_path := "backups/" ++ backup_id
      if env.archive_ok a.path then
        { st with
          files := st.files ++ [backup_path ++ ".zip"],
          backups := st.backups ++
            [{ id := backup_id, app_id := app_id,
               backup_path := backup_path ++ ".zip", created_at := now,
               size := env.archive_size (backup_path ++ ".zip") }] }
      else st
    else st

/-! ## Deployment workflows (claims C3, C4, C8) -/

/-- How a deployment can fail: `zipfile.BadZipFile` escaping from
`extractall` (the `InvalidArchive` condition — the source has no handler, the
exception propagates to the Flask route), or the probe-loop fuel artifact
(provably unreachable, see `generate_domain_total`). -/
inductive DeployErr where
  | invalidArchive
  | probeFuelExhausted
deriving DecidableEq

/-- The `app_info` dictionary built by `deploy_html_app`. -/
def html_app_info (app_id : String) (now : Nat)
    (app_name domain description : String) (pub : Bool) (nconfig : Nat) :
    DeployedApp :=
  { id := app_id, name := app_name, type := "html", domain := domain,
    path := "apps/" ++ app_id, url := "/app/" ++ app_id,
    full_url := "https://" ++ domain, deployed_at := now,
    status := "running", port := 8083 + nconfig, command := none,
    description := description, public := pub, visits := 0 }

/-- The `app_info` dictionary built by `deploy_nodejs_app`. -/
def nodejs_app_info (app_id : String) (now : Nat)
    (app_name domain description start_command : String) (pub : Bool)
    (nconfig : Nat) : DeployedApp :=
  { id := app_id, name := app_name, type := "nodejs", domain := domain,
    path := "apps/" ++ app_id, url := "/app/" ++ app_id,
    full_url := "https://" ++ domain, deployed_at := now,
    status := "running", port := 9000 + nconfig,
    command := some start_command, description := description, public := pub,
    visits := 0 }

def info_of (d : DeployedApp) : AppInfo :=
  { id := d.id, name := d.name, type := d.type, domain := d.domain,
    path := d.path, url := d.url, deployed_at := d.deployed_at,
    status := d.status, port := some d.port, command := d.command,
    description := d.description, public := d.public }

/-- The tail every successful deploy runs: persist the record, mirror it into
the config dictionary, bump the stats, emit the `deploy` analytics event and
take the initial backup. -/
def finish_deploy (env : Env) (now : Nat) (info : DeployedApp)
    (kind : String) (app_name : String) (dirs2 : DirMap) (st : SysState) :
    SysState :=
  let db2 := save_application_to_db st.db (info_of info) now
  let st2 : SysState :=
    { st with
      db := db2
      dirs := dirs2
      deployed_apps := config_set st.deployed_apps info.id info
      stats :=
        { st.stats with
          total_apps := st.stats.total_apps + 1
          eternal_apps := st.stats.eternal_apps + 1
          html_apps :=
            if kind = "html" then st.stats.html_apps + 1
            else st.stats.html_apps
          nodejs_apps :=
            if kind = "nodejs" then st.stats.nodejs_apps + 1
            else st.stats.nodejs_apps }
      analytics := track_analytics env now st.analytics info.id "deploy"
        (some [("type", kind), ("name", app_name)]) }
  create_app_backup env now st2 info.id

/-- Embeds `deploy_html_app(app_name, files, description, public)`.  `app_id` is the
fresh `uuid4()[:8]` token.  A corrupt archive that still passes `is_zipfile`
makes `extractall` raise, which propagates out (`.error .invalidArchive`),
leaving the created directory in place; an upload failing `is_zipfile` is
stored as a single file. -/
def deploy_html_app (env : Env) (app_id : String) (now : Nat)
    (app_name : String) (upload : Upload) (description : String)
    (pub : Bool) (st : SysState) :
    Except DeployErr DeployedApp × SysState :=
  match generate_domain st.db app_name with
  | none => (.error .probeFuelExhausted, st)
  | some domain =>
    let app_path := "apps/" ++ app_id
    let dirs1 := makedirs st.dirs app_path
    match upload with
    | .zip extract_ok entries =>
      if extract_ok then
        let info := html_app_info app_id now app_name domain description pub
          st.deployed_apps.length
        (.ok info, finish_deploy env now info "html" app_name
          (extract_into dirs1 app_path entries) st)
      else (.error .invalidArchive, { st with dirs := dirs1 })
    | .single filename =>
      let info := html_app_info app_id now app_name domain description pub
        st.deployed_apps.length
      (.ok info, finish_deploy env now info "html" app_name
        (extract_into dirs1 app_path [filename]) st)

/-- Embeds the `base_name` used for the fallback manifest:
`app_name.lower().replace(' ', '-')`. -/
def npm_fallback_name (app_name : String) : String :=
  ⟨(app_name.data.map Char.toLower).map (fun c => if c = ' ' then '-' else c)⟩

/-- The part of `deploy_nodejs_app` after extraction: write the caller's
manifest verbatim when present, run `npm install` (logging its outcome;
failure is caught), write the fallback manifest only on failure and only when
no caller manifest exists, then run the common deploy tail. -/
def nodejs_after_extract (env : Env) (app_id : String) (now : Nat)
    (app_name domain : String) (package_json : Option String)
    (description : String) (pub : Bool) (start_command : String)
    (dirs2 : DirMap) (st : SysState) :
    Except DeployErr DeployedApp × SysState × List String :=
  let app_path := "apps/" ++ app_id
  let dirs3 :=
    match package_json with
    | some p => write_file_in dirs2 app_path "package.json" (.text p)
    | none => dirs2
  let npm :=
    if env.npm_ok then (dirs3, ["📦 Dependencies installed: ok"])
    else
      (match package_json with
       | none =>
         write_file_in dirs3 app_path "package.json"
           (.manifest (npm_fallback_name app_name) "1.0.0" start_command
             ">=16.0.0")
       | some _ => dirs3,
       ["⚠️ npm install failed: err"])
  let info := nodejs_app_info app_id now app_name domain description
    start_command pub st.deployed_apps.length
  (.ok info, finish_deploy env now info "nodejs" app_name npm.1 st, npm.2)

/-- Embeds `deploy_nodejs_app(app_name, files, package_json, description, public,
start_command)`.  An upload failing `is_zipfile` is silently not extracted
(there is no `else` branch).  If a caller manifest was supplied it is written
verbatim; `npm install` failure is caught, logged, and only then — and only
when no caller manifest exists — is the fallback manifest written.  Returns
the result, the new state, and the lines printed for the npm step. -/
def deploy_nodejs_app (env : Env) (app_id : String) (now : Nat)
    (app_name : String) (upload : Upload) (package_json : Option String)
    (description : String) (pub : Bool) (start_command : String)
    (st : SysState) :
    Except DeployErr DeployedApp × SysState × List String :=
  match generate_domain st.db app_name with
  | none => (.error .probeFuelExhausted, st, [])
  | some domain =>
    let app_path := "apps/" ++ app_id
    let dirs1 := makedirs st.dirs app_path
    match upload with
    | .zip extract_ok entries =>
      if extract_ok then
        nodejs_after_extract env app_id now app_name domain package_json
          description pub start_command (extract_into dirs1 app_path entries)
          st
      else (.error .invalidArchive, { st with dirs := dirs1 }, [])
    | .single _ =>
      nodejs_after_extract env app_id now app_name domain package_json
        description pub start_command dirs1 st


/-- A concrete `app_info` used in witnesses and counterexamples. -/
def sampleInfo (i dom : String) : AppInfo :=
  { id := i, name := "App", type := "html", domain := dom,
    path := "apps/xyz", url := "/app/xyz", deployed_at := 0,
    status := "running", port := none, command := none, description := "",
    public := true }

/-- C2, counterexample: persisting a second application record with the same
domain does not fail and does not leave the first record in place — the
`INSERT OR REPLACE` silently replaces it.  With a store holding the record
`a1 ↦ dup.ntando.store`, saving a record `b2` with the same domain succeeds
and the store afterwards contains only the new record. -/
theorem claim_C2_counterexample :
    save_application_to_db [sampleRow "a1" "dup.ntando.store"]
        (sampleInfo "b2" "dup.ntando.store") 2
      = [row_of_app_info (sampleInfo "b2" "dup.ntando.store") 2] ∧
    sampleRow "a1" "dup.ntando.store" ∉
      save_application_to_db [sampleRow "a1" "dup.ntando.store"]
        (sampleInfo "b2" "dup.ntando.store") 2 := by
  constructor
  · decide
  · decide

/-- C2 (amended): persisting a second application record with the same domain
`d` does not fail — the store's `INSERT OR REPLACE` removes every stored
record conflicting on id or domain (other than an exact copy of the inserted
row) and inserts the new record, so the already-persisted record is silently
overwritten; nevertheless at no point do two stored application records share
a domain or an id. -/
theorem claim_C2_save_overwrites (db : List AppRow) (info : AppInfo)
    (now : Nat)
    (hdb : db.Pairwise (fun a b => a.id ≠ b.id ∧ a.domain ≠ b.domain)) :
    (save_application_to_db db info now).Pairwise
      (fun a b => a.id ≠ b.id ∧ a.domain ≠ b.domain) ∧
    row_of_app_info info now ∈ save_application_to_db db info now ∧
    ∀ a ∈ db, (a.id = info.id ∨ a.domain = info.domain) →
      a ≠ row_of_app_info info now →
      a ∉ save_application_to_db db info now := by
  refine ⟨?_, ?_, ?_⟩
  · rw [save_application_to_db, insert_or_replace]
    rw [List.pairwise_append]
    refine ⟨hdb.filter _, List.pairwise_singleton _ _, ?_⟩
    intro a ha b hb
    have hpa := List.of_mem_filter ha
    simp only [decide_eq_true_eq] at hpa
    simp only [List.mem_singleton] at hb
    subst hb
    have hid : (row_of_app_info info now).id = info.id := rfl
    have hdom : (row_of_app_info info now).domain = info.domain := rfl
    rw [row_of_app_info] at hpa
    exact hpa
  · rw [save_application_to_db, insert_or_replace]
    exact List.mem_append_right _ (List.mem_singleton.mpr rfl)
  · intro a ha hconf hne hmem
    rw [save_application_to_db, insert_or_replace] at hmem
    rcases List.mem_append.mp hmem with hm | hm
    · have hpa := List.of_mem_filter hm
      simp only [decide_eq_true_eq] at hpa
      rcases hconf with hc | hc
      · exact hpa.1 hc
      · exact hpa.2 hc
    · exact hne (List.mem_singleton.mp hm)

/-- Witness for C2 at a concrete one-record store. -/
theorem claim_C2_save_overwrites_witness :
    ([sampleRow "a1" "old.ntando.store"].Pairwise
      (fun a b => a.id ≠ b.id ∧ a.domain ≠ b.domain)) ∧
    (save_application_to_db [sampleRow "a1" "old.ntando.store"]
        (sampleInfo "b2" "old.ntando.store") 2).Pairwise
      (fun a b => a.id ≠ b.id ∧ a.domain ≠ b.domain) :=
  ⟨by decide,
   (claim_C2_save_overwrites [sampleRow "a1" "old.ntando.store"]
     (sampleInfo "b2" "old.ntando.store") 2 (by decide)).1⟩


/-- A concrete environment for witnesses: every external call succeeds. -/
def env0 : Env :=
  { ip := none, ua := none, backup_uuid := fun _ => "bk123456",
    archive_ok := fun _ => true, archive_size := fun _ => 0,
    npm_ok := true, snapshot := fun _ => [] }

/-- The empty initial state. -/
def st0 : SysState :=
  { db := [], backups := [], analytics := [], deployed_apps := [],
    stats := { total_apps := 0, html_apps := 0, nodejs_apps := 0,
               eternal_apps := 0 },
    dirs := [], files := [] }

theorem natRepr_data (k : Nat) : (Nat.repr k).data = decDigits k := by
  have h := toDigitsCore_eq_decDigits k (k + 1) [] (by omega)
  show (Nat.toDigits 10 k).asString.data = decDigits k
  rw [Nat.toDigits, h]
  simp [List.asString]

/-- The un-numbered domain never coincides with a probe candidate (their
lengths differ). -/
theorem base_ne_numbered (clean : String) (k : Nat) :
    clean ++ base_domain ≠ numbered_domain clean k := by
  intro h
  have hd := congrArg (fun s => s.data.length) h
  simp only [numbered_domain, String.data_append, List.length_append] at hd
  have hr : 0 < (Nat.repr k).data.length := by
    rw [natRepr_data]
    cases hne : decDigits k with
    | nil => exact absurd hne (decDigits_ne_nil k)
    | cons a l => simp
  have hh : ("-" : String).data.length = 1 := by decide
  omega

theorem create_app_backup_preserves (env : Env) (now : Nat) (st : SysState)
    (app_id : String) :
    (create_app_backup env now st app_id).db = st.db ∧
    (create_app_backup env now st app_id).dirs = st.dirs ∧
    (create_app_backup env now st app_id).deployed_apps = st.deployed_apps ∧
    (create_app_backup env now st app_id).analytics = st.analytics := by
  rw [create_app_backup]
  cases hfind : st.db.find? (fun a => a.id == app_id) with
  | none => exact ⟨rfl, rfl, rfl, rfl⟩
  | some a =>
    by_cases hde : dir_exists st.dirs a.path
    · by_cases hao : env.archive_ok a.path
      · simp [hde, hao]
      · simp [hde, hao]
    · simp [hde]

theorem finish_deploy_db (env : Env) (now : Nat) (info : DeployedApp)
    (kind app_name : String) (dirs2 : DirMap) (st : SysState) :
    (finish_deploy env now info kind app_name dirs2 st).db
      = save_application_to_db st.db (info_of info) now := by
  rw [finish_deploy]
  exact (create_app_backup_preserves env now _ info.id).1

/-- Reduction of `deploy_html_app` on a good archive, once the allocator's
answer is known. -/
theorem deploy_html_app_eq_zip (env : Env) (app_id : String) (now : Nat)
    (app_name : String) (entries : List String) (description : String)
    (pub : Bool) (st : SysState) (domain : String)
    (hgen : generate_domain st.db app_name = some domain) :
    deploy_html_app env app_id now app_name (.zip true entries) description
        pub st
      = (.ok (html_app_info app_id now app_name domain description pub
            st.deployed_apps.length),
         finish_deploy env now
           (html_app_info app_id now app_name domain description pub
             st.deployed_apps.length)
           "html" app_name
           (extract_into (makedirs st.dirs ("apps/" ++ app_id))
             ("apps/" ++ app_id) entries) st) := by
  rw [deploy_html_app, hgen]
  rfl

/-- Reduction of `deploy_html_app` on a corrupt archive that passed
`is_zipfile`: the exception escapes and only the directory creation has
happened. -/
theorem deploy_html_app_eq_badzip (env : Env) (app_id : String) (now : Nat)
    (app_name : String) (entries : List String) (description : String)
    (pub : Bool) (st : SysState) (domain : String)
    (hgen : generate_domain st.db app_name = some domain) :
    deploy_html_app env app_id now app_name (.zip false entries) description
        pub st
      = (.error .invalidArchive,
         { st with dirs := makedirs st.dirs ("apps/" ++ app_id) }) := by
  rw [deploy_html_app, hgen]
  rfl

/-- Reduction of `deploy_html_app` on a single-file upload. -/
theorem deploy_html_app_eq_single (env : Env) (app_id : String) (now : Nat)
    (app_name : String) (filename : String) (description : String)
    (pub : Bool) (st : SysState) (domain : String)
    (hgen : generate_domain st.db app_name = some domain) :
    deploy_html_app env app_id now app_name (.single filename) description
        pub st
      = (.ok (html_app_info app_id now app_name domain description pub
            st.deployed_apps.length),
         finish_deploy env now
           (html_app_info app_id now app_name domain description pub
             st.deployed_apps.length)
           "html" app_name
           (extract_into (makedirs st.dirs ("apps/" ++ app_id))
             ("apps/" ++ app_id) [filename]) st) := by
  rw [deploy_html_app, hgen]

/-- What a successful `deploy_html_app` guarantees: the returned record
carries the fresh id and the freshly allocated domain, and the new database
is the old one with the record saved. -/
theorem deploy_html_app_ok (env : Env) (app_id : String) (now : Nat)
    (app_name : String) (upload : Upload) (description : String) (pub : Bool)
    (st : SysState) (r : DeployedApp)
    (h : (deploy_html_app env app_id now app_name upload description pub
      st).1 = .ok r) :
    r.id = app_id ∧
    generate_domain st.db app_name = some r.domain ∧
    (deploy_html_app env app_id now app_name upload description pub st).2.db
      = save_application_to_db st.db (info_of r) now := by
  cases hgen : generate_domain st.db app_name with
  | none =>
    obtain ⟨d, hd⟩ := generate_domain_total st.db app_name
    rw [hgen] at hd
    exact absurd hd (by simp)
  | some domain =>
    cases upload with
    | zip extract_ok entries =>
      cases extract_ok with
      | false =>
        rw [deploy_html_app_eq_badzip env app_id now app_name entries
          description pub st domain hgen] at h
        exact absurd h (by simp)
      | true =>
        rw [deploy_html_app_eq_zip env app_id now app_name entries
          description pub st domain hgen] at h ⊢
        have h2 : Except.ok (html_app_info app_id now app_name domain
            description pub st.deployed_apps.length) = Except.ok r := h
        have h3 : html_app_info app_id now app_name domain description pub
            st.deployed_apps.length = r := by
          injection h2
        subst h3
        exact ⟨rfl, rfl, finish_deploy_db env now _ "html" app_name _ st⟩
    | single filename =>
      rw [deploy_html_app_eq_single env app_id now app_name filename
        description pub st domain hgen] at h ⊢
      have h2 : Except.ok (html_app_info app_id now app_name domain
          description pub st.deployed_apps.length) = Except.ok r := h
      have h3 : html_app_info app_id now app_name domain description pub
          st.deployed_apps.length = r := by
        injection h2
      subst h3
      exact ⟨rfl, rfl, finish_deploy_db env now _ "html" app_name _ st⟩


/-- C3 (code bug): a corrupt upload does not behave as specified.  If the
corrupt archive still passes `is_zipfile`, extraction raises and no record is
persisted, but the directory created for the deployment is *not* removed — an
orphaned directory remains.  If the corrupt archive fails `is_zipfile`, the
upload is silently stored as a single file and an application record *is*
persisted instead of the deployment failing with `InvalidArchive`. -/
theorem claim_C3_corrupt_archive :
    (deploy_html_app env0 "abc12345" 5 "Broken" (.zip false []) "" true
      st0).1 = .error .invalidArchive ∧
    (deploy_html_app env0 "abc12345" 5 "Broken" (.zip false []) "" true
      st0).2.db = [] ∧
    dir_exists (deploy_html_app env0 "abc12345" 5 "Broken" (.zip false [])
      "" true st0).2.dirs "apps/abc12345" = true ∧
    (deploy_html_app env0 "def12345" 6 "Broken" (.single "corrupt.zip") ""
      true st0).1
      = .ok (html_app_info "def12345" 6 "Broken" "broken.ntando.store" ""
          true 0) ∧
    (deploy_html_app env0 "def12345" 6 "Broken" (.single "corrupt.zip") ""
      true st0).2.db ≠ [] := by
  exact ⟨rfl, rfl, rfl, rfl, by decide⟩

/-- First deployment of `"My Site!!"` from the empty state. -/
def deploy1_ex : Except DeployErr DeployedApp × SysState :=
  deploy_html_app env0 "aaaa0000" 1 "My Site!!" (.zip true ["index.html"]) ""
    true st0

/-- Second deployment of `"My Site!!"`, from the state the first one left. -/
def deploy2_ex : Except DeployErr DeployedApp × SysState :=
  deploy_html_app env0 "bbbb0000" 2 "My Site!!" (.zip true ["index.html"]) ""
    true deploy1_ex.2

/-- C4: deploying two applications with the same display name sequentially
yields two distinct application identifiers (the fresh uuid tokens, assumed
distinct and unused — uuid collisions are astronomically unlikely) and two
distinct domains, the second carrying a numeric suffix; in particular,
deploying `"My Site!!"` (html) yields domain `my-site.ntando.store` and
deploying `"My Site!!"` again yields `my-site-1.ntando.store`. -/
theorem claim_C4_sequential_deploys (env env2 : Env) (st : SysState)
    (app_name id1 id2 : String) (now1 now2 : Nat) (up1 up2 : Upload)
    (desc desc2 : String) (pub pub2 : Bool) (r1 r2 : DeployedApp)
    (hid : id1 ≠ id2)
    (hfresh : ∀ a ∈ st.db, a.id ≠ id1)
    (h1 : (deploy_html_app env id1 now1 app_name up1 desc pub st).1 = .ok r1)
    (h2 : (deploy_html_app env2 id2 now2 app_name up2 desc2 pub2
      (deploy_html_app env id1 now1 app_name up1 desc pub st).2).1
        = .ok r2) :
    (r1.id ≠ r2.id ∧ r1.domain ≠ r2.domain ∧
      ∃ k, 1 ≤ k ∧ r2.domain = numbered_domain (clean_name app_name) k) ∧
    deploy1_ex.1 = .ok (html_app_info "aaaa0000" 1 "My Site!!"
      "my-site.ntando.store" "" true 0) ∧
    deploy2_ex.1 = .ok (html_app_info "bbbb0000" 2 "My Site!!"
      "my-site-1.ntando.store" "" true 1) := by
  obtain ⟨hida, hgena, hdba⟩ :=
    deploy_html_app_ok env id1 now1 app_name up1 desc pub st r1 h1
  obtain ⟨hidb, hgenb, _⟩ :=
    deploy_html_app_ok env2 id2 now2 app_name up2 desc2 pub2 _ r2 h2
  refine ⟨⟨?_, ?_, ?_⟩, rfl, rfl⟩
  · rw [hida, hidb]; exact hid
  · have hrow1 : row_of_app_info (info_of r1) now1
        ∈ (deploy_html_app env id1 now1 app_name up1 desc pub st).2.db := by
      rw [hdba, save_application_to_db, insert_or_replace]
      exact List.mem_append_right _ (List.mem_singleton.mpr rfl)
    have hd1 : domain_exists
        (deploy_html_app env id1 now1 app_name up1 desc pub st).2.db
        r1.domain = true :=
      (domain_exists_iff _ _).mpr ⟨row_of_app_info (info_of r1) now1, hrow1, rfl⟩
    have hfree2 := generate_domain_free _ app_name r2.domain hgenb
    intro heq
    rw [heq] at hd1
    exact Bool.noConfusion (hd1.symm.trans hfree2)
  · have hbase1 : domain_exists
        (deploy_html_app env id1 now1 app_name up1 desc pub st).2.db
        (clean_name app_name ++ base_domain) = true := by
      by_cases hb : domain_exists st.db (clean_name app_name ++ base_domain)
          = true
      · obtain ⟨a, ha, hadom⟩ := (domain_exists_iff _ _).mp hb
        obtain ⟨k, hk1, hk2, _, _⟩ := generate_domain_probe st.db app_name hb
        have hr1d : r1.domain = numbered_domain (clean_name app_name) k := by
          have h3 := hgena.symm.trans hk2
          injection h3
        apply (domain_exists_iff _ _).mpr
        refine ⟨a, ?_, hadom⟩
        rw [hdba, save_application_to_db, insert_or_replace]
        apply List.mem_append_left
        apply List.mem_filter.mpr
        refine ⟨ha, ?_⟩
        simp only [decide_eq_true_eq]
        constructor
        · have hne := hfresh a ha
          show a.id ≠ r1.id
          rw [hida]
          exact hne
        · show a.domain ≠ r1.domain
          rw [hadom, hr1d]
          exact base_ne_numbered (clean_name app_name) k
      · have hbf : domain_exists st.db (clean_name app_name ++ base_domain)
            = false := by
          cases hval : domain_exists st.db
              (clean_name app_name ++ base_domain) with
          | false => rfl
          | true => exact absurd hval hb
        have hgb := generate_domain_base st.db app_name hbf
        have hr1d : r1.domain = clean_name app_name ++ base_domain := by
          have h3 := hgena.symm.trans hgb
          injection h3
        rw [← hr1d]
        have hrow1 : row_of_app_info (info_of r1) now1
            ∈ (deploy_html_app env id1 now1 app_name up1 desc pub st).2.db := by
          rw [hdba, save_application_to_db, insert_or_replace]
          exact List.mem_append_right _ (List.mem_singleton.mpr rfl)
        exact (domain_exists_iff _ _).mpr
          ⟨row_of_app_info (info_of r1) now1, hrow1, rfl⟩
    obtain ⟨k, hk1, hk2, _, _⟩ := generate_domain_probe _ app_name hbase1
    have h3 := hgenb.symm.trans hk2
    refine ⟨k, hk1, ?_⟩
    injection h3

/-- Witness for C4: the two concrete `"My Site!!"` deployments. -/
theorem claim_C4_sequential_deploys_witness :
    (("aaaa0000" : String) ≠ "bbbb0000") ∧
    (html_app_info "aaaa0000" 1 "My Site!!" "my-site.ntando.store" "" true
      0).domain
      ≠ (html_app_info "bbbb0000" 2 "My Site!!" "my-site-1.ntando.store" ""
          true 1).domain := by
  have h := claim_C4_sequential_deploys env0 env0 st0 "My Site!!" "aaaa0000"
    "bbbb0000" 1 2 (.zip true ["index.html"]) (.zip true ["index.html"]) ""
    "" true true
    (html_app_info "aaaa0000" 1 "My Site!!" "my-site.ntando.store" "" true 0)
    (html_app_info "bbbb0000" 2 "My Site!!" "my-site-1.ntando.store" "" true
      1)
    (by decide) (by intro a ha; simp [st0] at ha) rfl rfl
  exact ⟨by decide, h.1.2.1⟩


/-! ## Directory-content lemmas (claim C8) -/

/-- The entries of directory `p` (first matching association). -/
def read_dir (dirs : DirMap) (p : String) : List (String × FileContent) :=
  match dirs.find? (fun e => e.1 == p) with
  | some e => e.2
  | none => []

theorem listdir_eq_read_dir (dirs : DirMap) (p : String) :
    listdir dirs p = (read_dir dirs p).map Prod.fst := by
  rw [listdir, read_dir]
  cases dirs.find? (fun e => e.1 == p) <;> rfl

theorem dir_exists_makedirs (dirs : DirMap) (p : String) :
    dir_exists (makedirs dirs p) p = true := by
  rw [makedirs]
  by_cases h : dir_exists dirs p = true
  · rw [if_pos h]; exact h
  · rw [if_neg h]
    simp [dir_exists]

theorem dir_exists_write_file_in (dirs : DirMap) (q p n : String)
    (c : FileContent) :
    dir_exists (write_file_in dirs q n c) p = dir_exists dirs p := by
  induction dirs with
  | nil => rfl
  | cons e es ih =>
    have hfst : ((if e.1 = q then (q, write_file e.2 n c) else e) :
        String × List (String × FileContent)).1 = e.1 := by
      by_cases he : e.1 = q
      · rw [if_pos he]; exact he.symm
      · rw [if_neg he]
    simp only [dir_exists, write_file_in, List.map_cons, List.any_cons] at ih ⊢
    rw [hfst, ih]

theorem dir_exists_extract_into (dirs : DirMap) (q p : String)
    (names : List String) :
    dir_exists (extract_into dirs q names) p = dir_exists dirs p := by
  induction names generalizing dirs with
  | nil => rfl
  | cons n ns ih =>
    show dir_exists (extract_into (write_file_in dirs q n .blob) q ns) p = _
    rw [ih, dir_exists_write_file_in]

theorem read_dir_write_file_in (dirs : DirMap) (p n : String)
    (c : FileContent) :
    read_dir (write_file_in dirs p n c) p
      = if dir_exists dirs p then write_file (read_dir dirs p) n c
        else read_dir dirs p := by
  induction dirs with
  | nil => rfl
  | cons e es ih =>
    by_cases he : e.1 = p
    · have : (e.1 == p) = true := by simp [he]
      simp only [write_file_in, List.map_cons, read_dir, List.find?, if_pos he,
        dir_exists, List.any_cons, this, Bool.true_or, if_true]
      simp only [read_dir] at *
      simp [List.find?]
    · have hne : (e.1 == p) = false := by simp [he]
      simp only [write_file_in, List.map_cons, read_dir, List.find?, if_neg he,
        dir_exists, List.any_cons, hne, Bool.false_or] at ih ⊢
      exact ih

theorem mem_write_file (es : List (String × FileContent)) (n : String)
    (c : FileContent) : (n, c) ∈ write_file es n c := by
  rw [write_file]
  by_cases h : es.any (fun e => e.1 == n) = true
  · rw [if_pos h]
    obtain ⟨e0, he0, hk⟩ := List.any_eq_true.mp h
    simp only [beq_iff_eq] at hk
    apply List.mem_map.mpr
    exact ⟨e0, he0, by rw [if_pos hk]⟩
  · rw [if_neg h]
    exact List.mem_append_right _ (List.mem_singleton.mpr rfl)

theorem mem_keys_write_file (es : List (String × FileContent)) (n q : String)
    (c : FileContent) (h : q ∈ (write_file es n c).map Prod.fst) :
    q ∈ es.map Prod.fst ∨ q = n := by
  rw [write_file] at h
  by_cases ha : es.any (fun e => e.1 == n) = true
  · rw [if_pos ha] at h
    left
    rw [List.map_map] at h
    obtain ⟨e0, he0, hq⟩ := List.mem_map.mp h
    apply List.mem_map.mpr
    refine ⟨e0, he0, ?_⟩
    rw [← hq]
    show e0.1 = (Prod.fst ∘ fun e => if e.1 = n then (n, c) else e) e0
    by_cases he : e0.1 = n
    · simp [he]
    · simp [he]
  · rw [if_neg ha] at h
    rw [List.map_append, List.mem_append] at h
    rcases h with h | h
    · exact Or.inl h
    · simp at h
      exact Or.inr h

theorem mem_keys_foldl_write (names : List String)
    (es : List (String × FileContent)) (q : String)
    (h : q ∈ (names.foldl (fun es2 n => write_file es2 n .blob) es).map
      Prod.fst) :
    q ∈ es.map Prod.fst ∨ q ∈ names := by
  induction names generalizing es with
  | nil => exact Or.inl h
  | cons n ns ih =>
    rcases ih (write_file es n .blob) h with h2 | h2
    · rcases mem_keys_write_file es n q .blob h2 with h3 | h3
      · exact Or.inl h3
      · exact Or.inr (h3 ▸ List.mem_cons_self n ns)
    · exact Or.inr (List.mem_cons_of_mem n h2)

theorem read_dir_extract_into (dirs : DirMap) (p : String)
    (names : List String) (h : dir_exists dirs p = true) :
    read_dir (extract_into dirs p names) p
      = names.foldl (fun es n => write_file es n .blob) (read_dir dirs p) := by
  induction names generalizing dirs with
  | nil => rfl
  | cons n ns ih =>
    show read_dir (extract_into (write_file_in dirs p n .blob) p ns) p = _
    rw [ih (write_file_in dirs p n .blob)
      ((dir_exists_write_file_in dirs p p n .blob).trans h),
      read_dir_write_file_in, if_pos h]
    rfl

theorem read_dir_makedirs_fresh (dirs : DirMap) (p : String)
    (h : dir_exists dirs p = false) :
    read_dir (makedirs dirs p) p = [] := by
  rw [makedirs, if_neg (by rw [h]; simp), read_dir]
  have hfind : (dirs ++ [(p, [])]).find? (fun e => e.1 == p)
      = some (p, []) := by
    rw [List.find?_append]
    have h1 : dirs.find? (fun e => e.1 == p) = none := by
      apply List.find?_eq_none.mpr
      intro e he
      intro hk
      have : dir_exists dirs p = true :=
        List.any_eq_true.mpr ⟨e, he, hk⟩
      rw [this] at h
      exact Bool.noConfusion h
    rw [h1]
    simp [List.find?]
  rw [hfind]


theorem finish_deploy_dirs (env : Env) (now : Nat) (info : DeployedApp)
    (kind app_name : String) (dirs2 : DirMap) (st : SysState) :
    (finish_deploy env now info kind app_name dirs2 st).dirs = dirs2 := by
  rw [finish_deploy]
  exact (create_app_backup_preserves env now _ info.id).2.1

/-- Reduction of `deploy_nodejs_app` on a good archive once the allocator's
answer is known. -/
theorem deploy_nodejs_app_eq_zip (env : Env) (app_id : String) (now : Nat)
    (app_name : String) (entries : List String) (package_json : Option String)
    (description : String) (pub : Bool) (start_command : String)
    (st : SysState) (domain : String)
    (hgen : generate_domain st.db app_name = some domain) :
    deploy_nodejs_app env app_id now app_name (.zip true entries)
        package_json description pub start_command st
      = nodejs_after_extract env app_id now app_name domain package_json
          description pub start_command
          (extract_into (makedirs st.dirs ("apps/" ++ app_id))
            ("apps/" ++ app_id) entries) st := by
  rw [deploy_nodejs_app, hgen]
  rfl

theorem nodejs_after_extract_dirs (env : Env) (app_id : String) (now : Nat)
    (app_name domain : String) (package_json : Option String)
    (description : String) (pub : Bool) (start_command : String)
    (dirs2 : DirMap) (st : SysState) :
    (nodejs_after_extract env app_id now app_name domain package_json
      description pub start_command dirs2 st).2.1.dirs
      = match package_json with
        | some p =>
          write_file_in dirs2 ("apps/" ++ app_id) "package.json" (.text p)
        | none =>
          if env.npm_ok then dirs2
          else write_file_in dirs2 ("apps/" ++ app_id) "package.json"
            (.manifest (npm_fallback_name app_name) "1.0.0" start_command
              ">=16.0.0") := by
  cases package_json <;> by_cases hnpm : env.npm_ok = true <;>
    simp [nodejs_after_extract, finish_deploy_dirs, hnpm]

theorem nodejs_after_extract_logs (env : Env) (app_id : String) (now : Nat)
    (app_name domain : String) (package_json : Option String)
    (description : String) (pub : Bool) (start_command : String)
    (dirs2 : DirMap) (st : SysState) :
    (nodejs_after_extract env app_id now app_name domain package_json
      description pub start_command dirs2 st).2.2
      = if env.npm_ok then ["📦 Dependencies installed: ok"]
        else ["⚠️ npm install failed: err"] := by
  cases package_json <;> by_cases hnpm : env.npm_ok = true <;>
    simp [nodejs_after_extract, hnpm]

theorem nodejs_after_extract_ok (env : Env) (app_id : String) (now : Nat)
    (app_name domain : String) (package_json : Option String)
    (description : String) (pub : Bool) (start_command : String)
    (dirs2 : DirMap) (st : SysState) :
    (nodejs_after_extract env app_id now app_name domain package_json
      description pub start_command dirs2 st).1
      = .ok (nodejs_app_info app_id now app_name domain description
          start_command pub st.deployed_apps.length) ∧
    (nodejs_after_extract env app_id now app_name domain package_json
      description pub start_command dirs2 st).2.1.db
      = save_application_to_db st.db
          (info_of (nodejs_app_info app_id now app_name domain description
            start_command pub st.deployed_apps.length)) now := by
  constructor
  · rfl
  · exact finish_deploy_db env now _ "nodejs" app_name _ st


/-- C8, counterexample: with no caller manifest and a *successful* package
manager run, no manifest is synthesized at all — the claim's "otherwise a
minimal manifest … is synthesized" fails. -/
theorem claim_C8_counterexample :
    "package.json" ∉ listdir
      (deploy_nodejs_app env0 "cafe0000" 3 "Api" (.zip true ["server.js"])
        none "" true "node server.js" st0).2.1.dirs "apps/cafe0000" := by
  decide

/-- C8 (amended): if the caller supplied a manifest it is written verbatim
into the application directory; otherwise no manifest is written up front —
when the package-manager invocation succeeds the directory holds no manifest
(beyond what the archive itself contained), and only when the invocation
fails is a minimal manifest declaring the supplied start command synthesized.
The failure is non-fatal: it is logged and the application record is still
created. -/
theorem claim_C8_nodejs_manifest (env : Env) (app_id : String) (now : Nat)
    (app_name : String) (entries : List String)
    (package_json : Option String) (description : String) (pub : Bool)
    (start_command : String) (st : SysState)
    (hfreshdir : dir_exists st.dirs ("apps/" ++ app_id) = false)
    (hnoentry : "package.json" ∉ entries) :
    (∀ p, package_json = some p →
      ("package.json", FileContent.text p) ∈ read_dir
        (deploy_nodejs_app env app_id now app_name (.zip true entries)
          package_json description pub start_command st).2.1.dirs
        ("apps/" ++ app_id)) ∧
    (package_json = none → env.npm_ok = true →
      "package.json" ∉ listdir
        (deploy_nodejs_app env app_id now app_name (.zip true entries)
          package_json description pub start_command st).2.1.dirs
        ("apps/" ++ app_id)) ∧
    (package_json = none → env.npm_ok = false →
      ("package.json", FileContent.manifest (npm_fallback_name app_name)
        "1.0.0" start_command ">=16.0.0") ∈ read_dir
        (deploy_nodejs_app env app_id now app_name (.zip true entries)
          package_json description pub start_command st).2.1.dirs
        ("apps/" ++ app_id)) ∧
    (env.npm_ok = false →
      "⚠️ npm install failed: err" ∈
        (deploy_nodejs_app env app_id now app_name (.zip true entries)
          package_json description pub start_command st).2.2) ∧
    (∃ r, (deploy_nodejs_app env app_id now app_name (.zip true entries)
        package_json description pub start_command st).1 = .ok r ∧
      row_of_app_info (info_of r) now ∈
        (deploy_nodejs_app env app_id now app_name (.zip true entries)
          package_json description pub start_command st).2.1.db) := by
  obtain ⟨domain, hgen⟩ := generate_domain_total st.db app_name
  have hred := deploy_nodejs_app_eq_zip env app_id now app_name entries
    package_json description pub start_command st domain hgen
  have hdir2 : dir_exists
      (extract_into (makedirs st.dirs ("apps/" ++ app_id))
        ("apps/" ++ app_id) entries) ("apps/" ++ app_id) = true := by
    rw [dir_exists_extract_into]
    exact dir_exists_makedirs _ _
  refine ⟨?_, ?_, ?_, ?_, ?_⟩
  · intro p hp
    subst hp
    rw [hred, nodejs_after_extract_dirs]
    show ("package.json", FileContent.text p) ∈ read_dir
      (write_file_in
        (extract_into (makedirs st.dirs ("apps/" ++ app_id))
          ("apps/" ++ app_id) entries)
        ("apps/" ++ app_id) "package.json" (.text p)) ("apps/" ++ app_id)
    rw [read_dir_write_file_in, if_pos hdir2]
    exact mem_write_file _ _ _
  · intro hp hnpm
    subst hp
    rw [hred, nodejs_after_extract_dirs]
    show "package.json" ∉ listdir
      (if env.npm_ok then
        extract_into (makedirs st.dirs ("apps/" ++ app_id))
          ("apps/" ++ app_id) entries
       else _) ("apps/" ++ app_id)
    rw [if_pos hnpm]
    intro hmem
    rw [listdir_eq_read_dir,
      read_dir_extract_into _ _ _ (dir_exists_makedirs _ _),
      read_dir_makedirs_fresh _ _ hfreshdir] at hmem
    rcases mem_keys_foldl_write entries [] _ hmem with h2 | h2
    · simp at h2
    · exact hnoentry h2
  · intro hp hnpm
    subst hp
    rw [hred, nodejs_after_extract_dirs]
    show ("package.json", FileContent.manifest (npm_fallback_name app_name)
        "1.0.0" start_command ">=16.0.0") ∈ read_dir
      (if env.npm_ok then
        extract_into (makedirs st.dirs ("apps/" ++ app_id))
          ("apps/" ++ app_id) entries
       else write_file_in
        (extract_into (makedirs st.dirs ("apps/" ++ app_id))
          ("apps/" ++ app_id) entries)
        ("apps/" ++ app_id) "package.json"
        (.manifest (npm_fallback_name app_name) "1.0.0" start_command
          ">=16.0.0")) ("apps/" ++ app_id)
    rw [if_neg (by simp [hnpm])]
    rw [read_dir_write_file_in, if_pos hdir2]
    exact mem_write_file _ _ _
  · intro hnpm
    rw [hred, nodejs_after_extract_logs, if_neg (by simp [hnpm])]
    exact List.mem_singleton.mpr rfl
  · refine ⟨nodejs_app_info app_id now app_name domain description
      start_command pub st.deployed_apps.length, ?_, ?_⟩
    · rw [hred]
      exact (nodejs_after_extract_ok env app_id now app_name domain
        package_json description pub start_command _ st).1
    · rw [hred,
        (nodejs_after_extract_ok env app_id now app_name domain
          package_json description pub start_command _ st).2]
      rw [save_application_to_db, insert_or_replace]
      exact List.mem_append_right _ (List.mem_singleton.mpr rfl)

/-- An environment where `npm install` fails. -/
def env1 : Env := { env0 with npm_ok := false }

/-- Witness for C8: a concrete nodejs deployment where `npm install` fails
and the fallback manifest appears. -/
theorem claim_C8_nodejs_manifest_witness :
    dir_exists st0.dirs ("apps/" ++ "cafe0000") = false ∧
    "package.json" ∉ ["server.js"] ∧
    ("package.json", FileContent.manifest (npm_fallback_name "Api") "1.0.0"
        "node server.js" ">=16.0.0") ∈ read_dir
      (deploy_nodejs_app env1 "cafe0000" 3 "Api" (.zip true ["server.js"])
        none "" true "node server.js" st0).2.1.dirs ("apps/" ++ "cafe0000") := by
  refine ⟨by decide, by decide, ?_⟩
  exact (claim_C8_nodejs_manifest env1 "cafe0000" 3 "Api" ["server.js"] none
    "" true "node server.js" st0 (by decide) (by decide)).2.2.1 rfl rfl


/-! ## Deletion and lookup (claim C5) -/

/-- Embeds `get_app_info(app_id)`: `self.config["deployed_apps"].get(app_id)` — the
lookup reads the in-process config dictionary, not the SQLite table. -/
def get_app_info (st : SysState) (app_id : String) : Option DeployedApp :=
  config_get st.deployed_apps app_id

/-- Embeds `delete_app(app_id)`: if the app is in the config dictionary, remove its
directory (when present on disk), delete the config entry and decrement the
stats; the SQLite `applications` row is never touched (there is no `DELETE
FROM applications` anywhere in the source). -/
def delete_app (st : SysState) (app_id : String) : Bool × SysState :=
  match config_get st.deployed_apps app_id with
  | none => (false, st)
  | some info =>
    let dirs2 :=
      if dir_exists st.dirs info.path then rmtree st.dirs info.path
      else st.dirs
    let stats2 :=
      { st.stats with
        total_apps := st.stats.total_apps - 1
        html_apps :=
          if info.type = "html" then st.stats.html_apps - 1
          else st.stats.html_apps
        nodejs_apps :=
          if info.type = "nodejs" then st.stats.nodejs_apps - 1
          else st.stats.nodejs_apps }
    (true, { st with dirs := dirs2,
                     deployed_apps := config_del st.deployed_apps app_id,
                     stats := stats2 })

theorem config_get_config_del (cfg : List (String × DeployedApp))
    (k : String) : config_get (config_del cfg k) k = none := by
  rw [config_get, config_del]
  have h : (cfg.filter (fun e => e.1 ≠ k)).find? (fun e => e.1 == k)
      = none := by
    apply List.find?_eq_none.mpr
    intro e he hk
    have hne := List.of_mem_filter he
    simp only [decide_eq_true_eq] at hne
    simp only [beq_iff_eq] at hk
    exact hne hk
  rw [h]
  rfl

theorem dir_exists_rmtree (dirs : DirMap) (p : String) :
    dir_exists (rmtree dirs p) p = false := by
  rw [dir_exists, rmtree]
  apply Bool.eq_false_iff.mpr
  intro hany
  obtain ⟨e, he, hk⟩ := List.any_eq_true.mp hany
  have hne := List.of_mem_filter he
  simp only [decide_eq_true_eq] at hne
  simp only [beq_iff_eq] at hk
  exact hne hk

/-- C5, counterexample: after deploying `"My Site!!"` and deleting it, the
deletion reports success, the config lookup is gone and the directory is
gone, but the relational metadata row is still present — the metadata record
is not removed, refuting the claim. -/
theorem claim_C5_counterexample :
    (delete_app deploy1_ex.2 "aaaa0000").1 = true ∧
    get_app_info (delete_app deploy1_ex.2 "aaaa0000").2 "aaaa0000" = none ∧
    dir_exists (delete_app deploy1_ex.2 "aaaa0000").2.dirs "apps/aaaa0000"
      = false ∧
    ∃ a ∈ (delete_app deploy1_ex.2 "aaaa0000").2.db, a.id = "aaaa0000" := by
  refine ⟨rfl, rfl, rfl, ?_⟩
  decide

/-- C5 (amended): for every deployed application (present in the config
dictionary), deleting it removes its config entry and its on-disk directory,
and a subsequent get on its identifier returns NotFound; the relational
metadata row, however, is left in the `applications` table unchanged. -/
theorem claim_C5_delete_app (st : SysState) (app_id : String)
    (info : DeployedApp)
    (hget : config_get st.deployed_apps app_id = some info) :
    (delete_app st app_id).1 = true ∧
    get_app_info (delete_app st app_id).2 app_id = none ∧
    dir_exists (delete_app st app_id).2.dirs info.path = false ∧
    (delete_app st app_id).2.db = st.db := by
  rw [delete_app, hget]
  refine ⟨rfl, ?_, ?_, rfl⟩
  · show get_app_info
      { st with dirs := _, deployed_apps := config_del st.deployed_apps app_id,
                stats := _ } app_id = none
    rw [get_app_info]
    exact config_get_config_del st.deployed_apps app_id
  · show dir_exists
      (if dir_exists st.dirs info.path then rmtree st.dirs info.path
       else st.dirs) info.path = false
    by_cases h : dir_exists st.dirs info.path = true
    · rw [if_pos h]
      exact dir_exists_rmtree st.dirs info.path
    · rw [if_neg h]
      cases hval : dir_exists st.dirs info.path with
      | false => rfl
      | true => exact absurd hval h

/-- Witness for C5 at the concrete deployed state. -/
theorem claim_C5_delete_app_witness :
    config_get deploy1_ex.2.deployed_apps "aaaa0000"
      = some (html_app_info "aaaa0000" 1 "My Site!!" "my-site.ntando.store"
          "" true 0) ∧
    (delete_app deploy1_ex.2 "aaaa0000").2.db = deploy1_ex.2.db := by
  refine ⟨rfl, ?_⟩
  exact (claim_C5_delete_app deploy1_ex.2 "aaaa0000"
    (html_app_info "aaaa0000" 1 "My Site!!" "my-site.ntando.store" "" true 0)
    rfl).2.2.2


/-! ## Backup sweeper (claim C6) -/

/-- The `backups` row one loop iteration of `create_automated_backups`
inserts for app `a`. -/
def backup_row_of (env : Env) (now : Nat) (a : AppRow) : BackupRow :=
  { id := env.backup_uuid a.id, app_id := a.id,
    backup_path := "backups/" ++ env.backup_uuid a.id ++ ".zip",
    created_at := now,
    size := env.archive_size ("backups/" ++ env.backup_uuid a.id ++ ".zip") }

/-- The line one loop iteration prints for app `a` (success or caught
failure). -/
def backup_log_of (env : Env) (a : AppRow) : String :=
  if env.archive_ok a.path then "📦 Backup created for " ++ a.name
  else "❌ Backup failed for " ++ a.name ++ ": err"

/-- One iteration of the sweep loop: skip silently when the directory is
missing; otherwise archive, record and log, catching an archive failure with
only a log line. -/
def backup_step (env : Env) (now : Nat) (dirs : DirMap)
    (acc : List BackupRow × List String) (a : AppRow) :
    List BackupRow × List String :=
  if dir_exists dirs a.path then
    if env.archive_ok a.path then
      (acc.1 ++ [backup_row_of env now a], acc.2 ++ [backup_log_of env a])
    else (acc.1, acc.2 ++ [backup_log_of env a])
  else acc

/-- Embeds `create_automated_backups`: sweep every application with
`status = 'running'`; returns the inserted backup rows and the printed
lines. -/
def create_automated_backups (env : Env) (now : Nat) (db : List AppRow)
    (dirs : DirMap) : List BackupRow × List String :=
  (db.filter (fun a => a.status == "running")).foldl
    (backup_step env now dirs) ([], [])

/-- The sweep loop in closed form: records for the apps whose directory
exists and whose archive succeeds, a log line for every app whose directory
exists. -/
theorem foldl_backup_step (env : Env) (now : Nat) (dirs : DirMap) :
    ∀ (apps : List AppRow) (acc : List BackupRow × List String),
      apps.foldl (backup_step env now dirs) acc
        = (acc.1 ++ (apps.filter (fun a =>
              dir_exists dirs a.path && env.archive_ok a.path)).map
              (backup_row_of env now),
           acc.2 ++ (apps.filter (fun a => dir_exists dirs a.path)).map
              (backup_log_of env)) := by
  intro apps
  induction apps with
  | nil => intro acc; simp
  | cons a as ih =>
    intro acc
    rw [List.foldl_cons, ih]
    by_cases hd : dir_exists dirs a.path = true
    · by_cases ha : env.archive_ok a.path = true
      · rw [backup_step, if_pos hd, if_pos ha]
        rw [List.filter_cons_of_pos (by simp [hd, ha]),
          List.filter_cons_of_pos (by simp [hd])]
        simp
      · rw [backup_step, if_pos hd, if_neg ha]
        rw [List.filter_cons_of_neg (by simp [hd, ha]),
          List.filter_cons_of_pos (by simp [hd])]
        simp
    · rw [backup_step, if_neg hd]
      rw [List.filter_cons_of_neg (by simp [hd]),
        List.filter_cons_of_neg (by simp [hd])]

/-- C6, counterexample: a sweep over one running application whose directory
is missing produces no backup record — which matches `N - 1` — but also *no*
log line at all: the missing directory is skipped silently, not "with only a
log entry". -/
theorem claim_C6_counterexample :
    create_automated_backups env0 7 [sampleRow "a1" "d1.ntando.store"] []
      = ([], []) := by
  decide

/-- C6 (amended): for every backup sweep over N applications with status
running where exactly one application's directory is missing and archiving
succeeds elsewhere, the sweep produces N-1 new backup records and skips the
missing one silently — it prints exactly N-1 lines, none for the skipped
application — and returns normally; moreover (failure isolation) in any
sweep, every running application whose directory exists and whose snapshot
succeeds gets its backup record, regardless of failures elsewhere. -/
theorem claim_C6_backup_sweep (env : Env) (now : Nat) (db : List AppRow)
    (dirs : DirMap) (missing : AppRow)
    (hall : ∀ a ∈ db, a.status = "running")
    (harch : ∀ a ∈ db, env.archive_ok a.path = true)
    (hmiss : dir_exists dirs missing.path = false)
    (hothers : ∀ a ∈ db, a ≠ missing → dir_exists dirs a.path = true)
    (hcount : db.countP (fun a => a == missing) = 1) :
    (create_automated_backups env now db dirs).1.length = db.length - 1 ∧
    (create_automated_backups env now db dirs).2.length = db.length - 1 ∧
    ∀ (env2 : Env) (db2 : List AppRow) (dirs2 : DirMap), ∀ a ∈ db2,
      a.status = "running" → dir_exists dirs2 a.path = true →
      env2.archive_ok a.path = true →
      backup_row_of env2 now a
        ∈ (create_automated_backups env2 now db2 dirs2).1 := by
  have hrun : db.filter (fun a => a.status == "running") = db :=
    List.filter_eq_self.mpr (fun a ha => by simp [hall a ha])
  have hfd : (db.filter (fun a =>
      dir_exists dirs a.path && env.archive_ok a.path))
      = db.filter (fun a => dir_exists dirs a.path) :=
    List.filter_congr (fun a ha => by simp [harch a ha])
  have hlen : (db.filter (fun a => dir_exists dirs a.path)).length
      = db.length - 1 := by
    have h1 := List.length_eq_countP_add_countP
      (p := fun a => dir_exists dirs a.path) (l := db)
    have h2 : db.countP (fun a => ¬ dir_exists dirs a.path)
        = db.countP (fun a => a == missing) := by
      apply List.countP_congr
      intro a ha
      by_cases hme : a = missing
      · subst hme
        simp [hmiss]
      · simp [hothers a ha hme, hme]
    rw [List.countP_eq_length_filter] at h1
    omega
  refine ⟨?_, ?_, ?_⟩
  · rw [create_automated_backups, foldl_backup_step, hrun]
    simp only [List.nil_append, List.length_map]
    rw [hfd]
    exact hlen
  · rw [create_automated_backups, foldl_backup_step, hrun]
    simp only [List.nil_append, List.length_map]
    exact hlen
  · intro env2 db2 dirs2 a ha hrun2 hdir2 hok2
    rw [create_automated_backups, foldl_backup_step]
    simp only [List.nil_append]
    apply List.mem_map.mpr
    refine ⟨a, ?_, rfl⟩
    apply List.mem_filter.mpr
    refine ⟨?_, by simp [hdir2, hok2]⟩
    apply List.mem_filter.mpr
    exact ⟨ha, by simp [hrun2]⟩

/-- Witness for C6: a two-app sweep with one directory missing yields one
record and one log line. -/
theorem claim_C6_backup_sweep_witness :
    (create_automated_backups env0 7
      [sampleRow "a1" "d1.ntando.store",
       { sampleRow "b2" "d2.ntando.store" with path := "apps/present" }]
      [("apps/present", [])]).1.length = 1 := by
  have h := claim_C6_backup_sweep env0 7
    [sampleRow "a1" "d1.ntando.store",
     { sampleRow "b2" "d2.ntando.store" with path := "apps/present" }]
    [("apps/present", [])] (sampleRow "a1" "d1.ntando.store")
    (by decide) (by intro a ha; rfl) (by decide)
    (by decide) (by decide)
  exact h.1


/-! ## Serving layer (claim C7) -/

/-- Embeds `str.endswith(suf)` on the character lists (`String.endsWith`
is byte-position based and does not reduce in the kernel). -/
def ends_with (s suf : String) : Bool :=
  s.data.drop (s.data.length - suf.data.length) == suf.data

/-- What the `/app/<app_id>` route returns. -/
inductive ServeResult where
  | file (path : String)
  | notFound (msg : String)
  | nodeInfo (app : DeployedApp)
  | unsupported
deriving DecidableEq

/-- The `serve_app` route: look the app up in the config; for `html` apps
serve `index.html` when present, else the first file ending in `.html` from
`os.listdir`, else 404; for `nodejs` apps render the info page. -/
def serve_app (st : SysState) (app_id : String) : ServeResult :=
  match get_app_info st app_id with
  | none => .notFound "App not found"
  | some info =>
    if info.type = "html" then
      if (listdir st.dirs info.path).any (fun f => f == "index.html") then
        .file (info.path ++ "/index.html")
      else if (listdir st.dirs info.path) ≠ [] then
        match (listdir st.dirs info.path).find?
            (fun f => ends_with f ".html") with
        | some f => .file (info.path ++ "/" ++ f)
        | none => .notFound "No index.html found"
      else .notFound "No index.html found"
    else if info.type = "nodejs" then .nodeInfo info
    else .unsupported

/-- C7: for every existing application of kind html, the serving operation
serves `index.html` when present in the application's directory, otherwise
serves some file of the directory with an `.html` extension when one exists
(the first in listing order — implementation-defined), and otherwise returns
NotFound. -/
theorem claim_C7_serve_html (st : SysState) (app_id : String)
    (info : DeployedApp)
    (hget : get_app_info st app_id = some info)
    (htype : info.type = "html") :
    ("index.html" ∈ listdir st.dirs info.path →
      serve_app st app_id = .file (info.path ++ "/index.html")) ∧
    ("index.html" ∉ listdir st.dirs info.path →
      (∃ f ∈ listdir st.dirs info.path, ends_with f ".html" = true) →
      ∃ f, f ∈ listdir st.dirs info.path ∧ ends_with f ".html" = true ∧
        serve_app st app_id = .file (info.path ++ "/" ++ f)) ∧
    ((¬ ∃ f ∈ listdir st.dirs info.path, ends_with f ".html" = true) →
      serve_app st app_id = .notFound "No index.html found") := by
  have hserve : serve_app st app_id
      = if (listdir st.dirs info.path).any (fun f => f == "index.html") then
          .file (info.path ++ "/index.html")
        else if (listdir st.dirs info.path) ≠ [] then
          match (listdir st.dirs info.path).find?
              (fun f => ends_with f ".html") with
          | some f => .file (info.path ++ "/" ++ f)
          | none => .notFound "No index.html found"
        else .notFound "No index.html found" := by
    rw [serve_app, hget]
    show (if info.type = "html" then _ else _) = _
    rw [if_pos htype]
  refine ⟨?_, ?_, ?_⟩
  · intro hin
    rw [hserve, if_pos (List.any_eq_true.mpr ⟨_, hin, by simp⟩)]
  · intro hnotin hex
    have hany : (listdir st.dirs info.path).any (fun f => f == "index.html")
        ≠ true := by
      intro hc
      obtain ⟨f, hf, hfeq⟩ := List.any_eq_true.mp hc
      simp only [beq_iff_eq] at hfeq
      subst hfeq
      exact hnotin hf
    obtain ⟨f0, hf0mem, hf0p⟩ := hex
    have hne : listdir st.dirs info.path ≠ [] :=
      List.ne_nil_of_mem hf0mem
    have hsome : ((listdir st.dirs info.path).find?
        (fun f => ends_with f ".html")).isSome := by
      rw [List.find?_isSome]
      exact ⟨f0, hf0mem, hf0p⟩
    obtain ⟨f, hf⟩ := Option.isSome_iff_exists.mp hsome
    have hfp := List.find?_some hf
    refine ⟨f, List.mem_of_find?_eq_some hf, ?_, ?_⟩
    · exact hfp
    · rw [hserve, if_neg hany, if_pos hne, hf]
  · intro hnex
    have hfnone : (listdir st.dirs info.path).find?
        (fun f => ends_with f ".html") = none := by
      apply List.find?_eq_none.mpr
      intro x hx hp
      exact hnex ⟨x, hx, hp⟩
    have hany : (listdir st.dirs info.path).any (fun f => f == "index.html")
        ≠ true := by
      intro hc
      obtain ⟨f, hf, hfeq⟩ := List.any_eq_true.mp hc
      simp only [beq_iff_eq] at hfeq
      subst hfeq
      exact hnex ⟨"index.html", hf, by decide⟩
    by_cases hne : listdir st.dirs info.path = []
    · rw [hserve, if_neg hany, if_neg (by simp [hne])]
    · rw [hserve, if_neg hany, if_pos hne, hfnone]

/-- Witness for C7: serving the concrete deployed `"My Site!!"` app returns
its `index.html`. -/
theorem claim_C7_serve_html_witness :
    serve_app deploy1_ex.2 "aaaa0000"
      = .file ("apps/aaaa0000" ++ "/index.html") := by
  have h := claim_C7_serve_html deploy1_ex.2 "aaaa0000"
    (html_app_info "aaaa0000" 1 "My Site!!" "my-site.ntando.store" "" true 0)
    (by decide) rfl
  exact h.1 (by decide)

/-! ## Analytics (claim C9) -/

/-- Embeds `str.startswith(pre)` on the character lists
(`String.startsWith` is byte-position based and does not reduce in the
kernel). -/
def starts_with (s pre : String) : Bool :=
  s.data.take pre.data.length == pre.data

/-- The `@app.before_request` hook `track_request`: records a `visit` event
only when the endpoint name starts with `app_` (which matches the
`app_analytics` and `app_backups` routes, but *not* `serve_app`). -/
def track_request (env : Env) (now : Nat)
    (analytics : List AnalyticsEvent) (endpoint : Option String)
    (view_app_id : Option String) : List AnalyticsEvent :=
  match endpoint with
  | none => analytics
  | some ep =>
    if starts_with ep "app_" then
      match view_app_id with
      | some i => track_analytics env now analytics i "visit" none
      | none => analytics
    else analytics

/-- The `visit` timestamps recorded for app id `i`. -/
def visit_timestamps (analytics : List AnalyticsEvent) (i : String) :
    List Nat :=
  (analytics.filter
    (fun e => e.app_id == some i && e.event_type == "visit")).map
    (fun e => e.timestamp)

/-- Embeds `process_analytics`: the UPDATE sets `last_accessed` to the newest
`visit` event timestamp for every app that has visit events; the `visits`
counter is not in the SET clause and is never updated (despite the source
comment "Update visit counts and last accessed times"). -/
def process_analytics (db : List AppRow)
    (analytics : List AnalyticsEvent) : List AppRow :=
  db.map (fun a =>
    if analytics.any
        (fun e => e.app_id == some a.id && e.event_type == "visit") then
      { a with last_accessed := (visit_timestamps analytics a.id).max? }
    else a)

/-- C9 (code bug): serving an application records no visit event — the
before-request hook only fires for endpoints starting with `app_`, and the
serving endpoint is named `serve_app` — and `process_analytics` never mutates
any application's `visits` counter. -/
theorem claim_C9_analytics_gap (env : Env) (now : Nat)
    (analytics : List AnalyticsEvent) (db : List AppRow)
    (view_app_id : Option String) :
    track_request env now analytics (some "serve_app") view_app_id
      = analytics ∧
    (process_analytics db analytics).map (fun a => a.visits)
      = db.map (fun a => a.visits) := by
  constructor
  · show (if starts_with "serve_app" "app_" then
            match view_app_id with
            | some i => track_analytics env now analytics i "visit" none
            | none => analytics
          else analytics) = analytics
    rw [if_neg (by decide)]
  · rw [process_analytics, List.map_map]
    apply List.map_congr_left
    intro a ha
    by_cases h : analytics.any
        (fun e => e.app_id == some a.id && e.event_type == "visit") = true
    · simp only [Function.comp, if_pos h]
    · simp only [Function.comp, if_neg h]

/-! ## Restore (claim C10) -/

/-- Embeds `restore_from_backup(app_id, backup_id)`: look the backup row up with
`SELECT backup_path FROM backups WHERE app_id = ? AND id = ?`; if the row and
its archive file exist, look the application row up; if present, delete the
app directory (when it exists) and re-extract the snapshot, returning True;
in every other case return False and change nothing. -/
def restore_from_backup (env : Env) (st : SysState)
    (app_id backup_id : String) : Bool × SysState :=
  match st.backups.find?
      (fun b => b.app_id == app_id && b.id == backup_id) with
  | none => (false, st)
  | some b =>
    if st.files.any (fun f => f == b.backup_path) then
      match st.db.find? (fun a => a.id == app_id) with
      | none => (false, st)
      | some a =>
        let dirs1 :=
          if dir_exists st.dirs a.path then rmtree st.dirs a.path
          else st.dirs
        (true,
         { st with dirs := dirs1 ++ [(a.path, env.snapshot b.backup_path)] })
    else (false, st)

/-- C10: the restore operation mutates the stored directories only when a
backup record matching both the application id and the backup id exists and
its archive file exists on disk; whenever it returns failure the whole state
is left exactly as it was. -/
theorem claim_C10_restore_guard (env : Env) (st : SysState)
    (app_id backup_id : String) :
    (¬ (∃ b ∈ st.backups, b.app_id = app_id ∧ b.id = backup_id ∧
        b.backup_path ∈ st.files) →
      restore_from_backup env st app_id backup_id = (false, st)) ∧
    ((restore_from_backup env st app_id backup_id).2.dirs ≠ st.dirs →
      ∃ b ∈ st.backups, b.app_id = app_id ∧ b.id = backup_id ∧
        b.backup_path ∈ st.files) ∧
    ((restore_from_backup env st app_id backup_id).1 = false →
      (restore_from_backup env st app_id backup_id).2 = st) := by
  cases hfind : st.backups.find?
      (fun b => b.app_id == app_id && b.id == backup_id) with
  | none =>
    have hres : restore_from_backup env st app_id backup_id = (false, st) := by
      rw [restore_from_backup, hfind]
    rw [hres]
    exact ⟨fun _ => rfl, fun h => absurd rfl h, fun _ => rfl⟩
  | some b =>
    by_cases hfile : st.files.any (fun f => f == b.backup_path) = true
    · cases hfinda : st.db.find? (fun a => a.id == app_id) with
      | none =>
        have hres : restore_from_backup env st app_id backup_id
            = (false, st) := by
          simp only [restore_from_backup, hfind, hfile, hfinda, if_true]
        rw [hres]
        exact ⟨fun _ => rfl, fun h => absurd rfl h, fun _ => rfl⟩
      | some a =>
        have hres : restore_from_backup env st app_id backup_id
            = (true,
               { st with dirs :=
                  (if dir_exists st.dirs a.path then rmtree st.dirs a.path
                   else st.dirs) ++ [(a.path, env.snapshot b.backup_path)] }) := by
          simp only [restore_from_backup, hfind, hfile, hfinda, if_true]
        have hP : ∃ b2 ∈ st.backups, b2.app_id = app_id ∧
            b2.id = backup_id ∧ b2.backup_path ∈ st.files := by
          have hmem := List.mem_of_find?_eq_some hfind
          have hpred := List.find?_some hfind
          simp only [Bool.and_eq_true, beq_iff_eq] at hpred
          obtain ⟨f, hfmem, hfeq⟩ := List.any_eq_true.mp hfile
          simp only [beq_iff_eq] at hfeq
          exact ⟨b, hmem, hpred.1, hpred.2, hfeq ▸ hfmem⟩
        rw [hres]
        exact ⟨fun hnp => absurd hP hnp, fun _ => hP,
               fun hfalse => absurd hfalse (by simp)⟩
    · have hfileF : st.files.any (fun f => f == b.backup_path) = false := by
        cases hval : st.files.any (fun f => f == b.backup_path) with
        | false => rfl
        | true => exact absurd hval hfile
      have hres : restore_from_backup env st app_id backup_id
          = (false, st) := by
        simp only [restore_from_backup, hfind, hfileF, Bool.false_eq_true,
          if_false]
      rw [hres]
      exact ⟨fun _ => rfl, fun h => absurd rfl h, fun _ => rfl⟩

/-- Witness for C10: restoring with an unknown backup id in the concrete
deployed state fails and leaves the state untouched. -/
theorem claim_C10_restore_guard_witness :
    restore_from_backup env0 deploy1_ex.2 "aaaa0000" "nosuchbk"
      = (false, deploy1_ex.2) := by
  exact (claim_C10_restore_guard env0 deploy1_ex.2 "aaaa0000" "nosuchbk").1
    (by decide)

end NtandoComputer
